import Mathlib

/-!
# Verification of the codebase-context generator

Shallow embedding of `codebase_context/main.py`: the constant tables, the
file filter `should_include_file`, the scan `scan_codebase` (directory
skipping, metadata extraction, sorting by `(tokens, path)`), and the
selection loop of `generate_context_file` (priority reordering followed by
the greedy prefix-fit walk under the token budget).

Filesystem traversal is modelled by passing the list of regular files found
beneath the root explicitly: each `RawFile` carries its path relative to the
scan root (as a list of path segments, mirroring `Path.parts`) together with
the decoded text content that `get_file_info` would read.  `rglob`'s
visiting order is implementation-defined, so the list order is arbitrary.
Python strings are modelled by Lean `String`; Python's string comparison
(lexicographic by code point) is modelled by `pyStrLt`, and `str.lower` on
the ASCII range by `lowerStr`.
-/

namespace CodebaseContext

/-- `CODE_EXTENSIONS` from main.py lines 14-21 (a Python set used only for
membership tests; modelled as a list). -/
def CODE_EXTENSIONS : List String :=
  [".py", ".js", ".jsx", ".ts", ".tsx", ".java", ".c", ".cpp", ".h", ".hpp",
   ".cs", ".go", ".rs", ".rb", ".php", ".swift", ".kt", ".scala", ".r",
   ".html", ".css", ".scss", ".sass", ".vue", ".svelte",
   ".json", ".yaml", ".yml", ".toml", ".xml",
   ".sql", ".sh", ".bash", ".ps1", ".bat",
   ".md", ".txt", ".rst"]

/-- `SKIP_DIRS` from main.py lines 24-29. -/
def SKIP_DIRS : List String :=
  ["node_modules", "venv", "env", ".env", "__pycache__", ".git", ".svn",
   "dist", "build", "target", "bin", "obj", ".idea", ".vscode",
   "coverage", ".pytest_cache", ".mypy_cache", "vendor", "bower_components",
   "*_venv"]

/-- `SKIP_FILES` from main.py lines 32-35. -/
def SKIP_FILES : List String :=
  [".DS_Store", "Thumbs.db", ".gitignore", ".dockerignore",
   "package-lock.json", "yarn.lock", "poetry.lock", "Pipfile.lock"]

/-- `estimate_tokens` (main.py line 37-39): `len(text) // 4`. -/
def estimate_tokens (text : String) : Nat :=
  text.length / 4

/-- A regular file visited by the traversal: its path relative to the scan
root, one path segment per entry (the last segment is the base name), and
its permissively decoded text content. -/
structure RawFile where
  relParts : List String
  content : String
deriving DecidableEq, Repr

/-- The dict built in `scan_codebase` (main.py lines 94-98) for one kept
file: relative path plus the fields of `get_file_info`. -/
structure FileRecord where
  relParts : List String
  size : Nat
  lines : Nat
  tokens : Nat
  content : String
deriving DecidableEq, Repr

/-- `get_file_info` (main.py lines 41-55) merged with the record creation of
lines 94-98: `size = len(content)`, `lines = content.count('\n') + 1`,
`tokens = estimate_tokens(content)`.  Read failure drops the file before
this point; the model receives the successfully decoded content. -/
def get_file_info (rf : RawFile) : FileRecord :=
  { relParts := rf.relParts
    size := rf.content.length
    lines := rf.content.data.count '\n' + 1
    tokens := estimate_tokens rf.content
    content := rf.content }

/-- Index of the last occurrence of `c`, as Python's `str.rfind` (restricted
to the found case; `none` plays the role of rfind's `-1`). -/
def rfind (cs : List Char) (c : Char) : Option Nat :=
  match cs with
  | [] => none
  | a :: rest =>
    match rfind rest c with
    | some i => some (i + 1)
    | none => if a = c then some 0 else none

/-- `pathlib.PurePath.suffix` of a base name: the substring from the last
dot, provided that dot is neither the first nor the last character;
otherwise the empty string. -/
def pySuffix (name : String) : String :=
  match rfind name.data '.' with
  | some i =>
    if 0 < i ∧ i < name.data.length - 1 then String.mk (name.data.drop i) else ""
  | none => ""

/-- `str.lower` on one character, modelled on the ASCII range (the only
range the extension tables use): maps A-Z to a-z, fixes the rest. -/
def lowerChar (c : Char) : Char :=
  if 'A' ≤ c ∧ c ≤ 'Z' then Char.ofNat (c.toNat + 32) else c

/-- `str.lower`, modelled on the ASCII range. -/
def lowerStr (s : String) : String :=
  String.mk (s.data.map lowerChar)

/-- `should_include_file` (main.py lines 57-67), applied to the base name of
the path (Python reads `path.name` and `path.suffix`, both functions of the
last path segment).  Python's `custom_extensions if custom_extensions else
CODE_EXTENSIONS` treats an empty set as falsy, hence the `isEmpty` test. -/
def should_include_file (name : String) (custom_extensions : Option (List String)) : Bool :=
  if name ∈ SKIP_FILES then false
  else
    let extensions :=
      match custom_extensions with
      | some es => if es.isEmpty then CODE_EXTENSIONS else es
      | none => CODE_EXTENSIONS
    decide (lowerStr (pySuffix name) ∈ extensions) || decide (pySuffix name = "")

/-- `str(path)` for a relative path: segments joined by "/". -/
def pathStr (parts : List String) : String :=
  String.intercalate "/" parts

/-- Python string `<`: lexicographic comparison by code point. -/
def pyStrLt : List Char → List Char → Bool
  | [], [] => false
  | [], _ :: _ => true
  | _ :: _, [] => false
  | c :: cs, d :: ds =>
    if c.toNat < d.toNat then true
    else if d.toNat < c.toNat then false
    else pyStrLt cs ds

/-- Python `<` on the sort key `(x['tokens'], str(x['path']))` of main.py
line 102: tuple comparison, first component `Nat`, second a string. -/
def keyLt (a b : FileRecord) : Bool :=
  decide (a.tokens < b.tokens) ||
    (a.tokens == b.tokens && pyStrLt (pathStr a.relParts).data (pathStr b.relParts).data)

/-- The non-strict order induced by `keyLt`; `list.sort(key=...)` produces a
list that is stably sorted, i.e. pairwise nondecreasing, with respect to it. -/
def keyLe (a b : FileRecord) : Bool :=
  !keyLt b a

/-- `scan_codebase` (main.py lines 69-104).  A file is kept when no element
of `SKIP_DIRS` occurs among the segments of its full path (root segments
followed by relative segments, as in `filepath.parts`) and
`should_include_file` accepts its base name; kept files become records via
`get_file_info`, `total_tokens` sums their token estimates, and the record
list is stably sorted by the key `(tokens, str(path))`.  The Python
signature also takes `max_tokens`, which the function never uses; it is
omitted here. -/
def scan_codebase (rootParts : List String) (files : List RawFile)
    (custom_extensions : Option (List String)) : List FileRecord × Nat :=
  let files_data := (files.filter (fun rf =>
      !(SKIP_DIRS.any (fun d => decide (d ∈ rootParts ++ rf.relParts))) &&
      should_include_file (rf.relParts.getLastD "") custom_extensions)).map get_file_info
  let total_tokens := (files_data.map (·.tokens)).sum
  (files_data.mergeSort keyLe, total_tokens)

/-- The priority reordering of `generate_context_file` (main.py lines
177-181): when a priority list is supplied and non-empty (Python truthiness
of `if priority_files:`), the candidates whose relative-path string is in
the list are moved, in candidate order, in front of the others. -/
def prioritize (files_data : List FileRecord) (priority_files : Option (List String)) :
    List FileRecord :=
  match priority_files with
  | none => files_data
  | some ps =>
    if ps.isEmpty then files_data
    else
      (files_data.filter (fun f => decide (pathStr f.relParts ∈ ps))) ++
        (files_data.filter (fun f => !decide (pathStr f.relParts ∈ ps)))

/-- The greedy walk of `generate_context_file` (main.py lines 183-188):
accumulate files while `running_tokens + file.tokens` stays within
`max_tokens`; `break` at the first file that would exceed it.  Returns
`(selected_files, running_tokens)`. -/
def selectGreedy (max_tokens : Nat) : List FileRecord → Nat → List FileRecord × Nat
  | [], running_tokens => ([], running_tokens)
  | f :: rest, running_tokens =>
    if running_tokens + f.tokens > max_tokens then ([], running_tokens)
    else
      (f :: (selectGreedy max_tokens rest (running_tokens + f.tokens)).1,
        (selectGreedy max_tokens rest (running_tokens + f.tokens)).2)

/-- The selection phase of `generate_context_file` (main.py lines 173-188):
priority reordering followed by the greedy prefix walk starting from a
running total of 0. -/
def select_files (files_data : List FileRecord) (max_tokens : Nat)
    (priority_files : Option (List String)) : List FileRecord × Nat :=
  selectGreedy max_tokens (prioritize files_data priority_files) 0

/-- Sum of the token estimates of a list of records. -/
def sumTokens (l : List FileRecord) : Nat :=
  (l.map (·.tokens)).sum

/-! ## Lemmas about the greedy walk -/

theorem selectGreedy_snd (B : Nat) (l : List FileRecord) : ∀ r : Nat,
    (selectGreedy B l r).2 = r + sumTokens (selectGreedy B l r).1 := by
  induction l with
  | nil => intro r; simp [selectGreedy, sumTokens]
  | cons f rest ih =>
    intro r
    by_cases h : r + f.tokens > B
    · simp [selectGreedy, h, sumTokens]
    · have := ih (r + f.tokens)
      simp only [selectGreedy, h, if_false, sumTokens, List.map_cons, List.sum_cons] at this ⊢
      omega

theorem selectGreedy_within (B : Nat) (l : List FileRecord) : ∀ r : Nat, r ≤ B →
    (selectGreedy B l r).2 ≤ B := by
  induction l with
  | nil => intro r h; simpa [selectGreedy]
  | cons f rest ih =>
    intro r h
    by_cases hc : r + f.tokens > B
    · simpa [selectGreedy, hc]
    · have := ih (r + f.tokens) (by omega)
      simpa [selectGreedy, hc]

theorem select_files_sum_le (files_data : List FileRecord) (max_tokens : Nat)
    (priority_files : Option (List String)) :
    sumTokens (select_files files_data max_tokens priority_files).1 ≤ max_tokens := by
  have h1 := selectGreedy_snd max_tokens (prioritize files_data priority_files) 0
  have h2 := selectGreedy_within max_tokens (prioritize files_data priority_files) 0
    (Nat.zero_le _)
  simp only [select_files]
  omega

theorem selectGreedy_starts (B : Nat) (l : List FileRecord) : ∀ r : Nat,
    (selectGreedy B l r).1 <+: l := by
  induction l with
  | nil => intro r; simp [selectGreedy]
  | cons f rest ih =>
    intro r
    by_cases hc : r + f.tokens > B
    · simp [selectGreedy, hc]
    · obtain ⟨t, ht⟩ := ih (r + f.tokens)
      exact ⟨t, by simp [selectGreedy, hc, ht]⟩

theorem selectGreedy_stop (B : Nat) (l : List FileRecord) : ∀ (r : Nat) (f : FileRecord),
    l[(selectGreedy B l r).1.length]? = some f → (selectGreedy B l r).2 + f.tokens > B := by
  induction l with
  | nil => intro r f h; simp at h
  | cons g rest ih =>
    intro r f h
    by_cases hc : r + g.tokens > B
    · simp only [selectGreedy, hc, if_true, List.length_nil, List.getElem?_cons_zero,
        Option.some.injEq] at h ⊢
      subst h
      omega
    · simp only [selectGreedy, hc, if_false, List.length_cons, List.getElem?_cons_succ] at h ⊢
      exact ih (r + g.tokens) f h

/-! ## Claims about the greedy budget walk -/

/-- C1: for every run, the sum of the token estimates over the selected
files is at most the token budget; equivalently, the greedy walk adds a file
only while the running total plus that file's estimate stays within the
budget. -/
theorem C1_selection_within_budget (files_data : List FileRecord) (max_tokens : Nat)
    (priority_files : Option (List String)) :
    sumTokens (select_files files_data max_tokens priority_files).1 ≤ max_tokens :=
  select_files_sum_le files_data max_tokens priority_files

/-- C2: the selection is a prefix of the candidate order that stops at the
first file whose inclusion would exceed the budget: (a) the selected files
are an initial segment of the prioritized order, so nothing after the stop
point is ever included; (b) the file standing right after the selected
prefix, when it exists, overflows the budget when added to the selected
total; (c) in particular, when the first file of the order already exceeds
the budget by itself the selection is empty, whatever comes after it. -/
theorem C2_prefix_fit_stops_at_first_overflow (files_data : List FileRecord)
    (max_tokens : Nat) (priority_files : Option (List String)) :
    (select_files files_data max_tokens priority_files).1
      <+: prioritize files_data priority_files ∧
    (∀ f : FileRecord,
      (prioritize files_data priority_files)[(select_files files_data max_tokens
        priority_files).1.length]? = some f →
      sumTokens (select_files files_data max_tokens priority_files).1 + f.tokens
        > max_tokens) ∧
    (∀ f : FileRecord, (prioritize files_data priority_files).head? = some f →
      max_tokens < f.tokens →
      (select_files files_data max_tokens priority_files).1 = []) := by
  refine ⟨selectGreedy_starts max_tokens (prioritize files_data priority_files) 0, ?_, ?_⟩
  · intro f hf
    have h1 := selectGreedy_stop max_tokens (prioritize files_data priority_files) 0 f hf
    have h2 := selectGreedy_snd max_tokens (prioritize files_data priority_files) 0
    simp only [select_files]
    omega
  · intro f hf hgt
    rcases hord : prioritize files_data priority_files with _ | ⟨g, t⟩
    · simp [select_files, hord, selectGreedy]
    · rw [hord, List.head?_cons, Option.some_inj] at hf
      obtain rfl := hf
      have hgt' : 0 + g.tokens > max_tokens := by omega
      simp only [select_files]
      rw [hord]
      simp only [selectGreedy]
      rw [if_pos hgt']

/-- Concrete records used in witnesses and counterexamples: two small
candidates and one priority file larger than the budgets used there. -/
def demoA : FileRecord := ⟨["a.py"], 40, 1, 10, ""⟩

def demoB : FileRecord := ⟨["b.py"], 80, 1, 20, ""⟩

def demoMain : FileRecord := ⟨["src", "main.py"], 8000, 1, 2000, ""⟩

/-- Witness for C2, the scenario of spec §8: the priority file
`src/main.py` (2000 tokens) is front-loaded under budget 1000; part (c) of
the theorem makes the selection empty although `a.py` (10 tokens) would fit,
and part (b) reports that the file after the (empty) selected prefix
overflows the budget. -/
theorem C2_witness :
    (select_files [demoA, demoMain] 1000 (some ["src/main.py"])).1 = [] ∧
    sumTokens (select_files [demoA, demoMain] 1000 (some ["src/main.py"])).1
      + demoMain.tokens > 1000 :=
  ⟨(C2_prefix_fit_stops_at_first_overflow [demoA, demoMain] 1000
      (some ["src/main.py"])).2.2 demoMain (by decide) (by decide),
   (C2_prefix_fit_stops_at_first_overflow [demoA, demoMain] 1000
      (some ["src/main.py"])).2.1 demoMain (by decide)⟩

/-- C5: a candidate whose own token estimate exceeds the budget is never
selected, regardless of its position in the candidate order (stated
contrapositively: every selected file fits the budget by itself). -/
theorem C5_selected_file_fits_budget (files_data : List FileRecord) (max_tokens : Nat)
    (priority_files : Option (List String)) (f : FileRecord)
    (hf : f ∈ (select_files files_data max_tokens priority_files).1) :
    f.tokens ≤ max_tokens := by
  have hsum : f.tokens ≤ sumTokens (select_files files_data max_tokens priority_files).1 := by
    have hm : f.tokens ∈ ((select_files files_data max_tokens priority_files).1.map
        (·.tokens)) := List.mem_map_of_mem _ hf
    exact List.single_le_sum (fun x _ => Nat.zero_le x) _ hm
  exact le_trans hsum (select_files_sum_le files_data max_tokens priority_files)

/-- Witness for C5: `a.py` (10 tokens) is selected under budget 500, and the
theorem bounds its estimate by the budget. -/
theorem C5_witness : demoA.tokens ≤ 500 :=
  C5_selected_file_fits_budget [demoA, demoB] 500 none demoA (by decide)

/-- C9: selection is a deterministic (pure) function of the candidate
records, the budget and the priority list: runs on identical inputs return
identical selected sequences and running totals. -/
theorem C9_selection_deterministic (fd₁ fd₂ : List FileRecord) (B₁ B₂ : Nat)
    (p₁ p₂ : Option (List String)) (hfd : fd₁ = fd₂) (hB : B₁ = B₂) (hp : p₁ = p₂) :
    select_files fd₁ B₁ p₁ = select_files fd₂ B₂ p₂ := by
  rw [hfd, hB, hp]

/-- Witness for C9 at a concrete repeated run. -/
theorem C9_witness :
    select_files [demoA, demoB] 500 (some ["b.py"])
      = select_files [demoA, demoB] 500 (some ["b.py"]) :=
  C9_selection_deterministic [demoA, demoB] [demoA, demoB] 500 500
    (some ["b.py"]) (some ["b.py"]) rfl rfl rfl

/-! ## Lemmas about the sort key -/

theorem pyStrLt_cons (x y : Char) (xs ys : List Char) :
    pyStrLt (x :: xs) (y :: ys) = true ↔
      x.toNat < y.toNat ∨ (x.toNat = y.toNat ∧ pyStrLt xs ys = true) := by
  simp only [pyStrLt]
  by_cases h1 : x.toNat < y.toNat
  · rw [if_pos h1]
    simp [h1]
  · by_cases h2 : y.toNat < x.toNat
    · rw [if_neg h1, if_pos h2]
      simp only [Bool.false_eq_true, false_iff]
      rintro (h | ⟨h, _⟩) <;> omega
    · rw [if_neg h1, if_neg h2]
      constructor
      · intro h
        exact Or.inr ⟨by omega, h⟩
      · rintro (h | ⟨_, h⟩)
        · omega
        · exact h

theorem pyStrLt_asymm (a : List Char) : ∀ b : List Char,
    pyStrLt a b = true → pyStrLt b a = false := by
  induction a with
  | nil =>
    intro b h
    cases b with
    | nil => simp [pyStrLt] at h
    | cons d ds => simp [pyStrLt]
  | cons c cs ih =>
    intro b h
    cases b with
    | nil => simp [pyStrLt] at h
    | cons d ds =>
      rw [pyStrLt_cons] at h
      rcases h with h | ⟨h, hrec⟩
      · rw [Bool.eq_false_iff]
        intro hcon
        rw [pyStrLt_cons] at hcon
        rcases hcon with hcon | ⟨hcon, _⟩ <;> omega
      · rw [Bool.eq_false_iff]
        intro hcon
        rw [pyStrLt_cons] at hcon
        rcases hcon with hcon | ⟨_, hcon⟩
        · omega
        · exact absurd hcon (by simp [ih ds hrec])

theorem pyStrLt_trans (a : List Char) : ∀ b c : List Char,
    pyStrLt a b = true → pyStrLt b c = true → pyStrLt a c = true := by
  induction a with
  | nil =>
    intro b c hab hbc
    cases b with
    | nil => simp [pyStrLt] at hab
    | cons d ds =>
      cases c with
      | nil => simp [pyStrLt] at hbc
      | cons e es => simp [pyStrLt]
  | cons x xs ih =>
    intro b c hab hbc
    cases b with
    | nil => simp [pyStrLt] at hab
    | cons y ys =>
      cases c with
      | nil => simp [pyStrLt] at hbc
      | cons z zs =>
        rw [pyStrLt_cons] at hab hbc ⊢
        rcases hab with hab | ⟨hab, habr⟩ <;> rcases hbc with hbc | ⟨hbc, hbcr⟩
        · exact Or.inl (by omega)
        · exact Or.inl (by omega)
        · exact Or.inl (by omega)
        · exact Or.inr ⟨by omega, ih ys zs habr hbcr⟩

theorem pyStrLt_conn (a : List Char) : ∀ b : List Char,
    pyStrLt a b = false → pyStrLt b a = false → a = b := by
  induction a with
  | nil =>
    intro b h1 _
    cases b with
    | nil => rfl
    | cons d ds => simp [pyStrLt] at h1
  | cons c cs ih =>
    intro b h1 h2
    cases b with
    | nil => simp [pyStrLt] at h2
    | cons d ds =>
      have h1' : ¬ (c.toNat < d.toNat ∨ (c.toNat = d.toNat ∧ pyStrLt cs ds = true)) := by
        rw [← pyStrLt_cons, h1]
        simp
      have h2' : ¬ (d.toNat < c.toNat ∨ (d.toNat = c.toNat ∧ pyStrLt ds cs = true)) := by
        rw [← pyStrLt_cons, h2]
        simp
      push_neg at h1' h2'
      have heq : c.toNat = d.toNat := by omega
      have hcd : c = d := by
        have := congrArg Char.ofNat heq
        rwa [Char.ofNat_toNat, Char.ofNat_toNat] at this
      have hcs : cs = ds :=
        ih ds (Bool.eq_false_iff.mpr (h1'.2 heq)) (Bool.eq_false_iff.mpr (h2'.2 heq.symm))
      rw [hcd, hcs]

theorem keyLt_iff (a b : FileRecord) :
    keyLt a b = true ↔ a.tokens < b.tokens ∨ (a.tokens = b.tokens ∧
      pyStrLt (pathStr a.relParts).data (pathStr b.relParts).data = true) := by
  simp [keyLt, Bool.or_eq_true, Bool.and_eq_true, decide_eq_true_eq, beq_iff_eq]

theorem keyLe_trans (a b c : FileRecord) (hab : keyLe a b = true)
    (hbc : keyLe b c = true) : keyLe a c = true := by
  simp only [keyLe, Bool.not_eq_true'] at hab hbc ⊢
  have hab' : ¬ (b.tokens < a.tokens ∨ (b.tokens = a.tokens ∧
      pyStrLt (pathStr b.relParts).data (pathStr a.relParts).data = true)) :=
    fun hP => Bool.eq_false_iff.mp hab ((keyLt_iff b a).mpr hP)
  have hbc' : ¬ (c.tokens < b.tokens ∨ (c.tokens = b.tokens ∧
      pyStrLt (pathStr c.relParts).data (pathStr b.relParts).data = true)) :=
    fun hP => Bool.eq_false_iff.mp hbc ((keyLt_iff c b).mpr hP)
  push_neg at hab' hbc'
  rw [Bool.eq_false_iff]
  intro hca0
  rw [keyLt_iff] at hca0
  rcases hca0 with hca | ⟨hca, hcar⟩
  · have h1 := hab'.1
    have h2 := hbc'.1
    omega
  · have h1 : b.tokens = a.tokens := by
      have := hab'.1
      have := hbc'.1
      omega
    have h2 : c.tokens = b.tokens := by
      have := hbc'.1
      omega
    have hba : pyStrLt (pathStr b.relParts).data (pathStr a.relParts).data = false :=
      Bool.eq_false_iff.mpr (hab'.2 h1)
    have hcb : pyStrLt (pathStr c.relParts).data (pathStr b.relParts).data = false :=
      Bool.eq_false_iff.mpr (hbc'.2 h2)
    by_cases hpab : pyStrLt (pathStr a.relParts).data (pathStr b.relParts).data = true
    · exact (Bool.eq_false_iff.mp hcb) (pyStrLt_trans _ _ _ hcar hpab)
    · have hpe : (pathStr a.relParts).data = (pathStr b.relParts).data :=
        pyStrLt_conn _ _ (Bool.eq_false_iff.mpr hpab) hba
      rw [← hpe] at hcb
      exact (Bool.eq_false_iff.mp hcb) hcar

theorem keyLe_total (a b : FileRecord) : (keyLe a b || keyLe b a) = true := by
  simp only [keyLe, Bool.or_eq_true, Bool.not_eq_true']
  by_cases h : keyLt b a = true
  · right
    rw [Bool.eq_false_iff]
    intro hc0
    rw [keyLt_iff] at hc0 h
    rcases hc0 with hc | ⟨hc, hcr⟩
    · rcases h with h | ⟨h, _⟩ <;> omega
    · rcases h with h | ⟨h, hr⟩
      · omega
      · exact (Bool.eq_false_iff.mp (pyStrLt_asymm _ _ hr)) hcr
  · left
    exact Bool.eq_false_iff.mpr h

/-- C4: the non-priority candidates, in the order the selector walks them,
are ascending in the pair `(estimatedTokens, relativePath)`: strictly fewer
tokens first, and at equal token counts the relative-path strings are in
lexicographic (code-point) order or equal. -/
theorem C4_rest_sorted_by_tokens_then_path (rootParts : List String)
    (files : List RawFile) (custom_extensions : Option (List String)) (ps : List String) :
    List.Pairwise
      (fun a b => a.tokens < b.tokens ∨ (a.tokens = b.tokens ∧
        (pyStrLt (pathStr a.relParts).data (pathStr b.relParts).data = true ∨
          pathStr a.relParts = pathStr b.relParts)))
      ((scan_codebase rootParts files custom_extensions).1.filter
        (fun f => !decide (pathStr f.relParts ∈ ps))) := by
  have hsorted : List.Pairwise (fun a b => keyLe a b = true)
      (scan_codebase rootParts files custom_extensions).1 := by
    show List.Pairwise _ (List.mergeSort _ keyLe)
    exact List.sorted_mergeSort keyLe_trans keyLe_total _
  have hsub : ((scan_codebase rootParts files custom_extensions).1.filter
      (fun f => !decide (pathStr f.relParts ∈ ps))).Sublist
      (scan_codebase rootParts files custom_extensions).1 :=
    List.filter_sublist _
  refine (hsorted.sublist hsub).imp ?_
  intro a b hle
  simp only [keyLe, Bool.not_eq_true'] at hle
  have hle' : ¬ (b.tokens < a.tokens ∨ (b.tokens = a.tokens ∧
      pyStrLt (pathStr b.relParts).data (pathStr a.relParts).data = true)) :=
    fun hP => Bool.eq_false_iff.mp hle ((keyLt_iff b a).mpr hP)
  push_neg at hle'
  by_cases ht : a.tokens < b.tokens
  · exact Or.inl ht
  · have h1 : b.tokens = a.tokens := by
      have := hle'.1
      omega
    have hba : pyStrLt (pathStr b.relParts).data (pathStr a.relParts).data = false :=
      Bool.eq_false_iff.mpr (hle'.2 h1)
    by_cases hab : pyStrLt (pathStr a.relParts).data (pathStr b.relParts).data = true
    · exact Or.inr ⟨h1.symm, Or.inl hab⟩
    · have hpe : (pathStr a.relParts).data = (pathStr b.relParts).data :=
        pyStrLt_conn _ _ (Bool.eq_false_iff.mpr hab) hba
      exact Or.inr ⟨h1.symm, Or.inr (String.ext hpe)⟩

/-! ## Claims about the priority reordering -/

/-- C3 counterexample: candidates `a.py` (10 tokens) and `b.py` (20 tokens)
with caller priority list `["b.py", "a.py"]` and a generous budget.  The
claim requires the selected priority files to keep the caller's order,
`b.py` before `a.py`; the code filters the candidate list instead and emits
`a.py` before `b.py`. -/
theorem C3_counterexample :
    (select_files [demoA, demoB] 1000 (some ["b.py", "a.py"])).1.map
        (fun f => pathStr f.relParts) = ["a.py", "b.py"] ∧
      (["a.py", "b.py"] : List String) ≠ ["b.py", "a.py"] := by
  decide

/-- C3 amended: every selected priority file still precedes every selected
non-priority file, but among themselves the selected priority files keep the
candidate-list order (the scan's ascending `(tokens, path)` order), not the
caller-given order: the selected priority files are an initial segment of
the priority files as they stand in the candidate list. -/
theorem C3_amended_priority_block_keeps_candidate_order
    (files_data : List FileRecord) (max_tokens : Nat) (ps : List String) :
    List.Pairwise
      (fun a b => pathStr b.relParts ∈ ps → pathStr a.relParts ∈ ps)
      (select_files files_data max_tokens (some ps)).1 ∧
    (select_files files_data max_tokens (some ps)).1.filter
        (fun f => decide (pathStr f.relParts ∈ ps))
      <+: files_data.filter (fun f => decide (pathStr f.relParts ∈ ps)) := by
  have hpre : (select_files files_data max_tokens (some ps)).1
      <+: prioritize files_data (some ps) :=
    selectGreedy_starts max_tokens (prioritize files_data (some ps)) 0
  by_cases hps : ps = []
  · subst hps
    constructor
    · exact List.pairwise_of_forall_mem_list (fun a _ b _ h => absurd h (by simp))
    · have h1 : (select_files files_data max_tokens (some [])).1.filter
          (fun f => decide (pathStr f.relParts ∈ ([] : List String))) = [] :=
        List.filter_eq_nil_iff.mpr (fun a _ => by simp)
      have h2 : files_data.filter
          (fun f => decide (pathStr f.relParts ∈ ([] : List String))) = [] :=
        List.filter_eq_nil_iff.mpr (fun a _ => by simp)
      rw [h1, h2]
  · have hne : ps.isEmpty = false := by
      cases ps with
      | nil => exact absurd rfl hps
      | cons a t => rfl
    have hord : prioritize files_data (some ps)
        = files_data.filter (fun f => decide (pathStr f.relParts ∈ ps))
          ++ files_data.filter (fun f => !decide (pathStr f.relParts ∈ ps)) := by
      simp [prioritize, hne]
    rw [hord] at hpre
    constructor
    · have hPR : List.Pairwise
          (fun a b => pathStr b.relParts ∈ ps → pathStr a.relParts ∈ ps)
          (files_data.filter (fun f => decide (pathStr f.relParts ∈ ps))
            ++ files_data.filter (fun f => !decide (pathStr f.relParts ∈ ps))) := by
        rw [List.pairwise_append]
        refine ⟨List.pairwise_of_forall_mem_list ?_,
          List.pairwise_of_forall_mem_list ?_, ?_⟩
        · intro a ha b _ _
          exact decide_eq_true_eq.mp (List.mem_filter.mp ha).2
        · intro a _ b hb hmem
          have hnb := (List.mem_filter.mp hb).2
          simp only [Bool.not_eq_true', decide_eq_false_iff_not] at hnb
          exact absurd hmem hnb
        · intro a ha b _ _
          exact decide_eq_true_eq.mp (List.mem_filter.mp ha).2
      exact hPR.sublist hpre.sublist
    · have hfil := List.IsPrefix.filter (fun f => decide (pathStr f.relParts ∈ ps)) hpre
      rw [List.filter_append] at hfil
      have hP : (files_data.filter (fun f => decide (pathStr f.relParts ∈ ps))).filter
          (fun f => decide (pathStr f.relParts ∈ ps))
          = files_data.filter (fun f => decide (pathStr f.relParts ∈ ps)) :=
        List.filter_eq_self.mpr (fun a ha => (List.mem_filter.mp ha).2)
      have hR : (files_data.filter (fun f => !decide (pathStr f.relParts ∈ ps))).filter
          (fun f => decide (pathStr f.relParts ∈ ps)) = [] :=
        List.filter_eq_nil_iff.mpr (fun a ha => by
          have hnb := (List.mem_filter.mp ha).2
          simp only [Bool.not_eq_true', decide_eq_false_iff_not] at hnb
          simpa using hnb)
      rw [hP, hR, List.append_nil] at hfil
      exact hfil

/-! ## Claims about the file filter and the walker -/

/-- C6 counterexample: with the caller-supplied allow-list `[".PY"]`, the
file `a.py` — whose suffix `.py` differs from the listed `.PY` only in
letter case — is rejected: the code lowercases the file's suffix but
compares it with the caller's entries verbatim. -/
theorem C6_counterexample :
    lowerStr ".py" = lowerStr ".PY" ∧ "a.py" ∉ SKIP_FILES ∧
      pySuffix "a.py" = ".py" ∧
      should_include_file "a.py" (some [".PY"]) = false := by
  decide

/-- C6 amended: extension matching lowercases only the file's suffix before
a verbatim comparison with the active allow-list, so it is case-insensitive
in the file's suffix alone: a file outside the skip-file set whose suffix
agrees with a listed extension up to lowercasing is a candidate whenever
that listed extension is itself lowercase.  A listed extension containing an
uppercase letter, as in the counterexample, is never matched by the
lowercased suffix. -/
theorem C6_amended_file_suffix_lowercased (name : String) (exts : List String)
    (e : String) (h0 : exts ≠ []) (h1 : name ∉ SKIP_FILES) (h2 : e ∈ exts)
    (h3 : lowerStr e = e) (h4 : lowerStr (pySuffix name) = lowerStr e) :
    should_include_file name (some exts) = true := by
  have hne : exts.isEmpty = false := by
    cases exts with
    | nil => exact absurd rfl h0
    | cons a t => rfl
  simp only [should_include_file, if_neg h1, hne, Bool.false_eq_true, if_false]
  rw [h4, h3]
  simp [h2]

/-- Witness for the amended C6: `a.PY` is a candidate under the
caller-supplied allow-list `[".py"]`. -/
theorem C6_witness : should_include_file "a.PY" (some [".py"]) = true :=
  C6_amended_file_suffix_lowercased "a.PY" [".py"] ".py" (by decide) (by decide)
    (by decide) (by decide) (by decide)

/-- C8: a file with no extension at all (empty suffix) passes the extension
filter under every active allow-list, default or caller-supplied, provided
its base name is not in the skip-file set. -/
theorem C8_extensionless_always_candidate (name : String)
    (custom_extensions : Option (List String)) (h1 : pySuffix name = "")
    (h2 : name ∉ SKIP_FILES) :
    should_include_file name custom_extensions = true := by
  simp [should_include_file, h2, h1]

/-- Witness for C8: `Makefile` is a candidate even under the allow-list
`[".py"]`. -/
theorem C8_witness : should_include_file "Makefile" (some [".py"]) = true :=
  C8_extensionless_always_candidate "Makefile" (some [".py"]) (by decide) (by decide)

/-- C7: a file whose full path contains a segment exactly equal to a
skip-directory name is never a candidate, whatever its extension; stated
contrapositively, no segment of any candidate's full path (root segments
included) is a skip-directory name. -/
theorem C7_no_candidate_under_skip_dir (rootParts : List String)
    (files : List RawFile) (custom_extensions : Option (List String))
    (r : FileRecord) (seg : String)
    (hr : r ∈ (scan_codebase rootParts files custom_extensions).1)
    (hseg : seg ∈ rootParts ++ r.relParts) :
    seg ∉ SKIP_DIRS := by
  intro hskip
  rw [show (scan_codebase rootParts files custom_extensions).1
      = ((files.filter (fun rf =>
          !(SKIP_DIRS.any (fun d => decide (d ∈ rootParts ++ rf.relParts))) &&
          should_include_file (rf.relParts.getLastD "") custom_extensions)).map
          get_file_info).mergeSort keyLe from rfl] at hr
  obtain ⟨rf, hrfmem, hrfeq⟩ := List.mem_map.mp (List.mem_mergeSort.mp hr)
  have hkept := (List.mem_filter.mp hrfmem).2
  simp only [Bool.and_eq_true, Bool.not_eq_true', List.any_eq_false,
    decide_eq_true_eq] at hkept
  have hrel : rf.relParts = r.relParts := by
    rw [← hrfeq]
    rfl
  rw [← hrel] at hseg
  exact hkept.1 seg hskip hseg

/-- Raw files used by the walker witnesses: one under `node_modules`, one
under `src`, same base name and allow-listed extension. -/
def demoRaw1 : RawFile := ⟨["node_modules", "x.js"], "let"⟩

def demoRaw2 : RawFile := ⟨["src", "x.js"], "let x=1;"⟩

theorem scanDemo_eq : (scan_codebase ["proj"] [demoRaw1, demoRaw2] none).1
    = [get_file_info demoRaw2] := by
  rw [show (scan_codebase ["proj"] [demoRaw1, demoRaw2] none).1
      = (([demoRaw1, demoRaw2].filter (fun rf =>
          !(SKIP_DIRS.any (fun d => decide (d ∈ ["proj"] ++ rf.relParts))) &&
          should_include_file (rf.relParts.getLastD "") none)).map
          get_file_info).mergeSort keyLe from rfl]
  rw [show ([demoRaw1, demoRaw2].filter (fun rf =>
      !(SKIP_DIRS.any (fun d => decide (d ∈ ["proj"] ++ rf.relParts))) &&
      should_include_file (rf.relParts.getLastD "") none)).map get_file_info
      = [get_file_info demoRaw2] from by decide]
  rw [List.mergeSort_singleton]

/-- Witness for C7, the scenario of spec §8: scanning a root containing
`node_modules/x.js` and `src/x.js` yields `src/x.js` as the only candidate,
and the theorem applied to that candidate certifies that `src` is not a
skip-directory name. -/
theorem C7_witness :
    ("src" ∉ SKIP_DIRS) ∧
      (scan_codebase ["proj"] [demoRaw1, demoRaw2] none).1.map
        (fun f => pathStr f.relParts) = ["src/x.js"] :=
  ⟨C7_no_candidate_under_skip_dir ["proj"] [demoRaw1, demoRaw2] none
      (get_file_info demoRaw2) "src"
      (by rw [scanDemo_eq]; exact List.mem_singleton.mpr rfl)
      (by decide),
   by rw [scanDemo_eq]; decide⟩

/-- C10: the skip-directory test runs on the full path as built from the
root argument, so the segments of the root itself are tested too: a scan
whose root path contains a skip-directory name returns no candidates and a
total token count of 0, whatever lies beneath it. -/
theorem C10_root_under_skip_dir_scans_empty (rootParts : List String)
    (files : List RawFile) (custom_extensions : Option (List String)) (seg : String)
    (h1 : seg ∈ rootParts) (h2 : seg ∈ SKIP_DIRS) :
    scan_codebase rootParts files custom_extensions = ([], 0) := by
  have hfil : files.filter (fun rf =>
      !(SKIP_DIRS.any (fun d => decide (d ∈ rootParts ++ rf.relParts))) &&
      should_include_file (rf.relParts.getLastD "") custom_extensions) = [] := by
    refine List.filter_eq_nil_iff.mpr ?_
    intro rf _
    intro hcon
    rw [Bool.and_eq_true] at hcon
    have h3 := hcon.1
    simp only [Bool.not_eq_true', List.any_eq_false, decide_eq_true_eq] at h3
    exact h3 seg h2 (List.mem_append_left _ h1)
  rw [show scan_codebase rootParts files custom_extensions
      = (((files.filter (fun rf =>
          !(SKIP_DIRS.any (fun d => decide (d ∈ rootParts ++ rf.relParts))) &&
          should_include_file (rf.relParts.getLastD "") custom_extensions)).map
          get_file_info).mergeSort keyLe,
        (((files.filter (fun rf =>
          !(SKIP_DIRS.any (fun d => decide (d ∈ rootParts ++ rf.relParts))) &&
          should_include_file (rf.relParts.getLastD "") custom_extensions)).map
          get_file_info).map (fun x => x.tokens)).sum) from rfl]
  rw [hfil]
  simp [List.mergeSort_nil]

/-- Witness for C10: a root located inside a directory named `build` scans
to no candidates and total 0, although `src/x.js` lies beneath it. -/
theorem C10_witness :
    scan_codebase ["home", "build", "proj"] [demoRaw2] none = ([], 0) :=
  C10_root_under_skip_dir_scans_empty ["home", "build", "proj"] [demoRaw2] none
    "build" (by decide) (by decide)

end CodebaseContext
